import Mathlib

/-!
Verification of the `profiling` measurement core.

The Python sources are shallowly embedded: each method becomes a pure Lean
function over an explicit state, machine clocks become explicit `Int`
readings passed at each call site, and Python exceptions become explicit
error values in the result.
-/

namespace Profiling

/-! ### Runnable (profiling/utils.py)

`Runnable.start` creates the generator returned by `run()`, stores it in
`_running`, and advances it once; `Runnable.stop` clears `_running` and
advances the stored generator once more.  A Python generator is modelled by
its script: the list of values it yields, in order; once the script is
exhausted, every further resumption raises StopIteration.  A bare `yield`
yields `none`.
-/

inductive RunErr : Type
  | runtimeError
  | typeError
  deriving DecidableEq, Repr

structure Gen : Type where
  script : List (Option Unit)
  deriving DecidableEq, Repr

/-- Resuming generator `g` for the `pos`-th time (0-based): `some v` means it
yielded `v`; `none` means it raised StopIteration. -/
def genNext (g : Gen) (pos : Nat) : Option (Option Unit) :=
  g.script[pos]?

/-- The generator stored in `_running`, together with how many times it has
been advanced. -/
structure GenState : Type where
  gen : Gen
  pos : Nat
  deriving DecidableEq, Repr

/-- `Runnable.is_running`: `_running is not None`. -/
def is_running (s : Option GenState) : Bool :=
  s.isSome

/-- Outcome of `Runnable.start`: the raised error (if any), the new value of
`_running`, and whether `run()` was invoked. -/
structure StartOut : Type where
  err : Option RunErr
  state : Option GenState
  runInvoked : Bool
  deriving DecidableEq, Repr

/-- `Runnable.start`: raise RuntimeError if already running; otherwise store
the fresh generator in `_running` and advance it once; StopIteration or a
yielded value raises TypeError (with `_running` left set either way). -/
def start (s : Option GenState) (g : Gen) : StartOut :=
  match s with
  | some st => ⟨some .runtimeError, some st, false⟩
  | none =>
    match genNext g 0 with
    | none => ⟨some .typeError, some ⟨g, 1⟩, true⟩
    | some yielded =>
      if yielded = none then ⟨none, some ⟨g, 1⟩, true⟩
      else ⟨some .typeError, some ⟨g, 1⟩, true⟩

/-- Outcome of `Runnable.stop`. -/
structure StopOut : Type where
  err : Option RunErr
  state : Option GenState
  deriving DecidableEq, Repr

/-- `Runnable.stop`: raise RuntimeError if not running; otherwise clear
`_running` and advance the generator, expecting StopIteration (anything else
raises TypeError). -/
def stop (s : Option GenState) : StopOut :=
  match s with
  | none => ⟨some .runtimeError, none⟩
  | some st =>
    match genNext st.gen st.pos with
    | none => ⟨none, none⟩
    | some _ => ⟨some .typeError, none⟩

/-! ### deferral (profiling/utils.py)

`deferral()` yields a `defer` function that appends `(f, args)` to a list;
in its `finally` block it pops from the end of the list and calls each
popped action until the list is empty.  The scope body is modelled as a
list of steps, each either registering an action or raising; the run
returns the actions executed by the `finally` loop (in execution order)
and whether an error propagates.
-/

inductive BodyStep (α : Type) : Type
  | register (a : α)
  | raiseErr
  deriving DecidableEq, Repr

/-- The `while deferred: f, a, k = deferred.pop(); f(*a, **k)` loop: pop from
the end until empty, returning the popped elements in execution order.  The
fuel is the list length, which the loop decreases by one each iteration. -/
def drainAux {α : Type} : Nat → List α → List α
  | 0, _ => []
  | n + 1, ds =>
    match ds.getLast? with
    | none => []
    | some d => d :: drainAux n ds.dropLast

def drainDeferred {α : Type} (ds : List α) : List α :=
  drainAux ds.length ds

/-- Running the scope body: each `register a` appends `a` to the deferred
list; a raise aborts the body with the error pending. -/
def runBody {α : Type} : List (BodyStep α) → List α → List α × Bool
  | [], ds => (ds, false)
  | .register a :: rest, ds => runBody rest (ds ++ [a])
  | .raiseErr :: _, ds => (ds, true)

/-- The whole `with deferral() as defer:` scope: run the body, then drain the
deferred list; returns the executed actions in execution order and whether
the body's error propagates. -/
def deferral {α : Type} (body : List (BodyStep α)) : List α × Bool :=
  let out := runBody body []
  (drainDeferred out.1, out.2)

/-- Spec-side view: the actions registered before the first raise. -/
def regsBeforeRaise {α : Type} : List (BodyStep α) → List α
  | [] => []
  | .register a :: rest => a :: regsBeforeRaise rest
  | .raiseErr :: _ => []

/-- Spec-side view: whether the body raises. -/
def bodyRaises {α : Type} : List (BodyStep α) → Bool
  | [] => false
  | .register _ :: rest => bodyRaises rest
  | .raiseErr :: _ => true

theorem drainAux_eq_reverse {α : Type} :
    ∀ (n : Nat) (ds : List α), ds.length ≤ n → drainAux n ds = ds.reverse := by
  intro n
  induction n with
  | zero =>
    intro ds h
    rw [Nat.le_zero, List.length_eq_zero] at h
    simp [h, drainAux]
  | succ n ih =>
    intro ds h
    rcases ds.eq_nil_or_concat with rfl | ⟨l, b, rfl⟩
    · simp [drainAux]
    · rw [List.concat_eq_append] at h ⊢
      rw [drainAux, List.getLast?_concat, List.dropLast_concat,
        ih l (by simpa using Nat.le_of_succ_le_succ (by simpa using h))]
      simp

theorem drainDeferred_eq_reverse {α : Type} (ds : List α) :
    drainDeferred ds = ds.reverse :=
  drainAux_eq_reverse ds.length ds le_rfl

theorem runBody_eq {α : Type} :
    ∀ (body : List (BodyStep α)) (acc : List α),
      runBody body acc = (acc ++ regsBeforeRaise body, bodyRaises body) := by
  intro body
  induction body with
  | nil => intro acc; simp [runBody, regsBeforeRaise, bodyRaises]
  | cons step rest ih =>
    intro acc
    cases step with
    | register a => simp [runBody, regsBeforeRaise, bodyRaises, ih]
    | raiseErr => simp [runBody, regsBeforeRaise, bodyRaises]

/-! ### ContextualTimer (profiling/tracing/timers.py)

`_contextual_times` maps a context id to the stored pair
`(paused_at, resumed_at)`; a missing context defaults to `(0, 0)` — note the
default `resumed_at` is the integer `0`, not `None`.  `resumed_at = none`
models Python `None` (paused); `some r` models a clock reading.

The `clock` function that `timers.py` imports from `profiling.utils` is not
under `src/`.  Modelled from the spec: `clock` is "a monotonic CPU-time
source abstraction"; each call site receives the clock's current reading
explicitly as a `now : Int` argument. -/
def CtxTimes : Type :=
  Nat → Option (Int × Option Int)

/-- `self._contextual_times.get(context, (0, 0))`. -/
def ctGet (times : CtxTimes) (ctx : Nat) : Int × Option Int :=
  (times ctx).getD (0, some 0)

/-- `ContextualTimer.__call__`: return `paused_at` when `resumed_at` is
`None`, else `paused_at + clock() - resumed_at`. -/
def ctCall (times : CtxTimes) (now : Int) (ctx : Nat) : Int :=
  match ctGet times ctx with
  | (paused_at, none) => paused_at
  | (paused_at, some resumed_at) => paused_at + now - resumed_at

/-- `ContextualTimer.pause`: store `(self(context), None)`. -/
def ctPause (times : CtxTimes) (now : Int) (ctx : Nat) : CtxTimes :=
  fun c => if c = ctx then some (ctCall times now ctx, none) else times c

/-- `ContextualTimer.resume`: keep the stored `paused_at`, store
`resumed_at = clock()`. -/
def ctResume (times : CtxTimes) (now : Int) (ctx : Nat) : CtxTimes :=
  fun c => if c = ctx then some ((ctGet times ctx).1, some now) else times c

/-! ### frame_stack (profiling/utils.py, pure-Python path)

A frame chain is given innermost-first: the head is the `frame` argument
and each element's `f_back` is the next element (the chain ends where
`f_back` is `None`).  Python `is` identity on frames is modelled by frame
equality; `f_code` is the `code` field. -/
structure Frame : Type where
  fid : Nat
  code : Nat
  deriving DecidableEq, Repr

/-- `frame_stack`: walk the chain while the frame is not `None` and not the
base frame, `appendleft`-ing every frame whose code is not ignored.  The
deque read left to right is the returned list (oldest caller first). -/
def frame_stack : List Frame → Option Frame → List Nat → List Frame
  | [], _, _ => []
  | f :: rest, base_frame, ignoring_codes =>
    if some f = base_frame then []
    else if f.code ∈ ignoring_codes then frame_stack rest base_frame ignoring_codes
    else frame_stack rest base_frame ignoring_codes ++ [f]

/-- Spec-side view: the walked portion of the chain, i.e. the frames strictly
before the chain end or the first occurrence of the base frame. -/
def walkUpTo (base_frame : Option Frame) : List Frame → List Frame
  | [] => []
  | f :: rest => if some f = base_frame then [] else f :: walkUpTo base_frame rest

/-! ### Profiler.result (profiling/profiler.py)

`started = none` models the `AttributeError` state before the first
`start()` (neither `_cpu_time_started` nor `_wall_time_started` exists);
`some (c0, w0)` holds both start timestamps, which `start()` always sets
together.  `result` returns its value together with the (unchanged)
profiler state. -/
structure Stats : Type where
  sid : Nat
  deriving DecidableEq, Repr

structure ProfilerState : Type where
  started : Option (Int × Int)
  stats : Stats
  deriving DecidableEq, Repr

/-- `Profiler.result`: clamp both elapsed times at 0; on `AttributeError`
(never started) return zeroes; never raises and never assigns state. -/
def result (p : ProfilerState) (now_cpu now_wall : Int) :
    (Stats × Int × Int) × ProfilerState :=
  match p.started with
  | none => ((p.stats, 0, 0), p)
  | some (c0, w0) => ((p.stats, max 0 (now_cpu - c0), max 0 (now_wall - w0)), p)

/-! ### Samplers (profiling/sampling/samplers.py)

`sys._current_frames()` is modelled as an association list from thread id
to frame, with dict semantics: `frames[k] = v` replaces the value of an
existing key in place, otherwise appends the new entry; iteration over
`values()` follows the entry order.  `profiler.sample` calls are collected
as the list of frames passed, in call order. -/

/-- Python `d[k] = v` on an association list. -/
def setKey {F : Type} : List (Nat × F) → Nat → F → List (Nat × F)
  | [], k, v => [(k, v)]
  | p :: rest, k, v =>
    if p.1 = k then (k, v) :: rest else p :: setKey rest k v

/-- Python `d.get(k)` on an association list. -/
def lookupKey {F : Type} : List (Nat × F) → Nat → Option F
  | [], _ => none
  | p :: rest, k => if p.1 = k then some p.2 else lookupKey rest k

/-- `TracingSampler._profile`: `t = clock()`; if `t - sampled_at < interval`
return with nothing sampled, else set `sampled_at = t`, take the current
frames, overwrite the calling thread's entry with the triggering frame, and
sample every value.  Returns the new `sampled_at` and the frames sampled,
in order. -/
def tracing_profile {F : Type} (sampled_at interval : Int) (t : Int)
    (tid : Nat) (frame : F) (cur : List (Nat × F)) : Int × List F :=
  if t - sampled_at < interval then (sampled_at, [])
  else
    let frames := setKey cur tid frame
    (t, frames.map Prod.snd)

/-- `ItimerSampler.handle_signal`: take the current frames, overwrite the
main thread's entry with the interrupted frame, and sample every value.
Returns the frames sampled, in order. -/
def handle_signal {F : Type} (main_thread_id : Nat) (frame : F)
    (cur : List (Nat × F)) : List F :=
  (setKey cur main_thread_id frame).map Prod.snd

theorem lookupKey_setKey_self {F : Type} :
    ∀ (m : List (Nat × F)) (k : Nat) (v : F),
      lookupKey (setKey m k v) k = some v := by
  intro m k v
  induction m with
  | nil => simp [setKey, lookupKey]
  | cons p rest ih =>
    by_cases hp : p.1 = k
    · simp [setKey, lookupKey, hp]
    · simp [setKey, lookupKey, hp, ih]

theorem lookupKey_setKey_ne {F : Type} :
    ∀ (m : List (Nat × F)) (k k' : Nat) (v : F), k' ≠ k →
      lookupKey (setKey m k v) k' = lookupKey m k' := by
  intro m k k' v hne
  have hkk : ¬ (k = k') := fun h => hne h.symm
  induction m with
  | nil => simp [setKey, lookupKey, hkk]
  | cons p rest ih =>
    by_cases hp : p.1 = k
    · simp [setKey, lookupKey, hp, hkk]
    · simp [setKey, lookupKey, hp, ih]

theorem keys_setKey {F : Type} :
    ∀ (m : List (Nat × F)) (k : Nat) (v : F),
      (setKey m k v).map Prod.fst =
        if k ∈ m.map Prod.fst then m.map Prod.fst
        else m.map Prod.fst ++ [k] := by
  intro m k v
  induction m with
  | nil => simp [setKey]
  | cons p rest ih =>
    by_cases hp : p.1 = k
    · simp [setKey, hp]
    · have hsk : setKey (p :: rest) k v = p :: setKey rest k v := by
        simp [setKey, hp]
      have hmem_iff : (k ∈ (p :: rest).map Prod.fst) ↔ k ∈ rest.map Prod.fst := by
        rw [List.map_cons, List.mem_cons]
        exact or_iff_right (fun h => hp h.symm)
      by_cases hmem : k ∈ rest.map Prod.fst
      · rw [if_pos (hmem_iff.mpr hmem), hsk, List.map_cons, List.map_cons, ih,
          if_pos hmem]
      · rw [if_neg (fun h => hmem (hmem_iff.mp h)), hsk, List.map_cons,
          List.map_cons, ih, if_neg hmem]
        simp

theorem nodup_keys_setKey {F : Type} (m : List (Nat × F)) (k : Nat) (v : F)
    (h : (m.map Prod.fst).Nodup) : ((setKey m k v).map Prod.fst).Nodup := by
  rw [keys_setKey]
  by_cases hmem : k ∈ m.map Prod.fst
  · simpa [hmem] using h
  · simp only [hmem, if_false]
    exact h.append (List.nodup_singleton k)
      (by simpa [List.disjoint_right] using hmem)

theorem frame_stack_eq (chain : List Frame) (base : Option Frame)
    (ign : List Nat) :
    frame_stack chain base ign =
      ((walkUpTo base chain).filter (fun f => decide (f.code ∉ ign))).reverse := by
  induction chain with
  | nil => simp [frame_stack, walkUpTo]
  | cons f rest ih =>
    by_cases hbase : some f = base
    · simp [frame_stack, walkUpTo, hbase]
    · by_cases hcode : f.code ∈ ign
      · simp [frame_stack, walkUpTo, hbase, hcode, ih]
      · simp [frame_stack, walkUpTo, hbase, hcode, ih]

theorem walkUpTo_append (pre post : List Frame) (b : Frame) (hb : b ∉ pre) :
    walkUpTo (some b) (pre ++ b :: post) = pre := by
  induction pre with
  | nil => simp [walkUpTo]
  | cons f rest ih =>
    have hf : ¬ some f = some b := by
      intro h
      exact hb (by simp [Option.some_inj.mp h])
    have hrest : b ∉ rest := fun h => hb (List.mem_cons_of_mem f h)
    simp [walkUpTo, hf, ih hrest]

end Profiling

namespace Profiling

/-! ### Claim theorems -/

/-- C1: for a `run()` generator that yields exactly once (a bare `yield`),
`start(); stop()` succeeds; `start()` while `is_running()` raises
RuntimeError without invoking `run()` and without changing the state;
`stop()` while not running raises RuntimeError. -/
theorem runnable_lifecycle (g : Gen) (hg : g.script = [none]) :
    (start none g).err = none ∧
    is_running (start none g).state = true ∧
    (stop (start none g).state).err = none ∧
    (stop (start none g).state).state = none ∧
    (∀ (st : GenState) (g' : Gen),
      (start (some st) g').err = some RunErr.runtimeError ∧
      (start (some st) g').runInvoked = false ∧
      (start (some st) g').state = some st) ∧
    (stop none).err = some RunErr.runtimeError := by
  obtain ⟨s⟩ := g
  simp only [Gen.mk.injEq] at hg
  subst hg
  refine ⟨rfl, rfl, rfl, rfl, fun st g' => ⟨rfl, rfl, rfl⟩, rfl⟩

/-- Witness for C1: the canonical one-yield generator. -/
theorem runnable_lifecycle_witness :
    (start none ⟨[none]⟩).err = none ∧
    (stop (start none ⟨[none]⟩).state).err = none ∧
    (stop (start none ⟨[none]⟩).state).state = none :=
  ⟨(runnable_lifecycle ⟨[none]⟩ rfl).1,
   (runnable_lifecycle ⟨[none]⟩ rfl).2.2.1,
   (runnable_lifecycle ⟨[none]⟩ rfl).2.2.2.1⟩

/-- C2: on scope exit every registered action runs exactly once, in strict
reverse registration order — the executed list is the reverse of the
actions registered before any raise — and a pending body error still
propagates after the actions run. -/
theorem deferral_reverse_order {α : Type} (body : List (BodyStep α)) :
    deferral body = ((regsBeforeRaise body).reverse, bodyRaises body) := by
  simp [deferral, runBody_eq, drainDeferred_eq_reverse]

/-- C3 counterexample: with no context ever resumed or paused and the clock
reading 5, the elapsed time of context 0 is 5, not 0 — the missing-entry
default `(0, 0)` has `resumed_at = 0`, not `None`. -/
theorem ctCall_untouched_cex :
    ctCall (fun _ => none) 5 0 = 5 ∧ ¬ ctCall (fun _ => none) 5 0 = 0 := by
  constructor <;> decide

/-- C3 (amended): a context on which neither resume nor pause has ever been
called is treated as running since clock reading 0: its elapsed time equals
the current clock reading, so it is 0 exactly when the clock reads 0. -/
theorem ctCall_untouched (times : CtxTimes) (now : Int) (ctx : Nat)
    (h : times ctx = none) : ctCall times now ctx = now := by
  simp [ctCall, ctGet, h]

/-- Witness for the amended C3. -/
theorem ctCall_untouched_witness :
    ctCall (fun _ => none) 7 3 = 7 :=
  ctCall_untouched (fun _ => none) 7 3 rfl

/-- C4: for a tracked context, elapsed is the stored `accumulated` when
paused (`resumed_at = None`) and `accumulated + (now - resumed_at)` when
running; `pause` stores the current elapsed with `resumed_at = None`;
`resume` keeps `accumulated` and stores `resumed_at = now`. -/
theorem ctx_timer_record_ops (times : CtxTimes) (now acc r : Int) (ctx : Nat) :
    (times ctx = some (acc, none) → ctCall times now ctx = acc) ∧
    (times ctx = some (acc, some r) →
      ctCall times now ctx = acc + (now - r)) ∧
    ctPause times now ctx ctx = some (ctCall times now ctx, none) ∧
    (∀ ro : Option Int, times ctx = some (acc, ro) →
      ctResume times now ctx ctx = some (acc, some now)) := by
  refine ⟨?_, ?_, ?_, ?_⟩
  · intro h; simp [ctCall, ctGet, h]
  · intro h; simp only [ctCall, ctGet, h, Option.getD_some]; ring
  · simp [ctPause]
  · intro ro h; simp [ctResume, ctGet, h]

/-- Witness for C4: a paused record, a running record, and a resume. -/
theorem ctx_timer_record_ops_witness :
    ctCall (fun c => if c = 0 then some ((3 : Int), none) else none) 5 0 = 3 ∧
    ctCall (fun c => if c = 0 then some ((3 : Int), some 1) else none) 5 0
      = 3 + (5 - 1) ∧
    ctResume (fun c => if c = 0 then some ((3 : Int), some 1) else none) 5 0 0
      = some (3, some 5) := by
  have hpause :=
    ctx_timer_record_ops (fun c => if c = 0 then some ((3 : Int), none) else none)
      5 3 1 0
  have hrun :=
    ctx_timer_record_ops (fun c => if c = 0 then some ((3 : Int), some 1) else none)
      5 3 1 0
  exact ⟨hpause.1 rfl, hrun.2.1 rfl, hrun.2.2.2 (some 1) rfl⟩

/-- C5: pausing a context at elapsed `E`, then resuming it, then advancing the
clock by `d` makes its elapsed time exactly `E + d`. -/
theorem pause_resume_advance (times : CtxTimes) (t1 t2 d : Int) (ctx : Nat) :
    ctCall (ctResume (ctPause times t1 ctx) t2 ctx) (t2 + d) ctx
      = ctCall times t1 ctx + d := by
  simp [ctCall, ctResume, ctPause, ctGet]
  ring

/-- C6: frame_stack walks the chain from the innermost frame, stops at the
chain end or strictly before the base frame (the base frame is excluded),
returns accepted frames oldest-first, and omits ignored frames while
continuing past them; with the base frame `pre.length` positions above the
innermost frame and no ignored codes, the output is exactly the `pre.length`
walked frames, oldest-first. -/
theorem frame_stack_spec (chain pre post : List Frame) (b : Frame)
    (base : Option Frame) (ign : List Nat) (hb : b ∉ pre) :
    frame_stack chain base ign =
      ((walkUpTo base chain).filter (fun f => decide (f.code ∉ ign))).reverse ∧
    frame_stack (pre ++ b :: post) (some b) [] = pre.reverse ∧
    (frame_stack (pre ++ b :: post) (some b) []).length = pre.length := by
  have h2 : frame_stack (pre ++ b :: post) (some b) [] = pre.reverse := by
    rw [frame_stack_eq, walkUpTo_append pre post b hb]
    simp
  exact ⟨frame_stack_eq chain base ign, h2, by rw [h2]; simp⟩

/-- Witness for C6: a chain of four frames with the base two above the
innermost and one ignored code elsewhere. -/
theorem frame_stack_spec_witness :
    frame_stack [⟨0, 10⟩, ⟨1, 11⟩, ⟨2, 12⟩, ⟨3, 13⟩] (some ⟨2, 12⟩) []
      = [⟨1, 11⟩, ⟨0, 10⟩] ∧
    (frame_stack [⟨0, 10⟩, ⟨1, 11⟩, ⟨2, 12⟩, ⟨3, 13⟩] (some ⟨2, 12⟩) []).length
      = 2 := by
  have h :=
    frame_stack_spec [⟨0, 10⟩, ⟨1, 11⟩, ⟨2, 12⟩, ⟨3, 13⟩]
      [⟨0, 10⟩, ⟨1, 11⟩] [⟨3, 13⟩] ⟨2, 12⟩ (some ⟨2, 12⟩) [] (by decide)
  exact ⟨h.2.1, h.2.2⟩

/-- C7: `result` never mutates the profiler state, clamps both elapsed times
to be non-negative, returns zeroes when never started, and otherwise returns
the clamped differences from the recorded start timestamps. -/
theorem result_spec (p : ProfilerState) (now_cpu now_wall : Int) :
    (result p now_cpu now_wall).2 = p ∧
    0 ≤ (result p now_cpu now_wall).1.2.1 ∧
    0 ≤ (result p now_cpu now_wall).1.2.2 ∧
    (p.started = none → (result p now_cpu now_wall).1 = (p.stats, 0, 0)) ∧
    (∀ c0 w0 : Int, p.started = some (c0, w0) →
      (result p now_cpu now_wall).1 =
        (p.stats, max 0 (now_cpu - c0), max 0 (now_wall - w0))) := by
  obtain ⟨st, stats⟩ := p
  cases st with
  | none => simp [result]
  | some cw =>
    obtain ⟨c0, w0⟩ := cw
    simp [result, le_max_left]

/-- Witness for C7: a started profiler with concrete clocks. -/
theorem result_spec_witness :
    (result ⟨some (2, 3), ⟨0⟩⟩ 5 7).1 = (⟨0⟩, max 0 3, max 0 4) ∧
    (result ⟨some (2, 3), ⟨0⟩⟩ 5 7).2 = ⟨some (2, 3), ⟨0⟩⟩ := by
  have h := result_spec ⟨some (2, 3), ⟨0⟩⟩ 5 7
  exact ⟨by rw [h.2.2.2.2 2 3 rfl]; norm_num, h.1⟩

/-- C8: the tracing callback returns immediately — no samples, timestamp
unchanged — when less than `interval` has passed since the last accepted
sample; otherwise it sets the timestamp to the clock reading, overwrites the
calling thread's entry in the current-frames mapping with the triggering
frame (other entries unchanged, per-thread uniqueness preserved), and
samples each entry of the resulting mapping exactly once. -/
theorem tracing_profile_spec {F : Type} (sampled_at interval t : Int)
    (tid : Nat) (frame : F) (cur : List (Nat × F)) :
    (t - sampled_at < interval →
      tracing_profile sampled_at interval t tid frame cur = (sampled_at, [])) ∧
    (¬ t - sampled_at < interval →
      tracing_profile sampled_at interval t tid frame cur =
        (t, (setKey cur tid frame).map Prod.snd) ∧
      lookupKey (setKey cur tid frame) tid = some frame ∧
      (∀ k : Nat, k ≠ tid →
        lookupKey (setKey cur tid frame) k = lookupKey cur k) ∧
      ((cur.map Prod.fst).Nodup → ((setKey cur tid frame).map Prod.fst).Nodup) ∧
      (tracing_profile sampled_at interval t tid frame cur).2.length
        = (setKey cur tid frame).length) := by
  constructor
  · intro h; simp [tracing_profile, h]
  · intro h
    refine ⟨by simp [tracing_profile, h], lookupKey_setKey_self _ _ _,
      fun k hk => lookupKey_setKey_ne _ _ _ _ hk,
      fun hn => nodup_keys_setKey _ _ _ hn, ?_⟩
    simp [tracing_profile, h]

/-- Witness for C8: a throttled call and an accepted call on two threads. -/
theorem tracing_profile_spec_witness :
    tracing_profile 0 10 5 1 (100 : Nat) [(1, 20), (2, 30)] = (0, []) ∧
    tracing_profile 0 1 5 1 (100 : Nat) [(1, 20), (2, 30)]
      = (5, [100, 30]) := by
  have hthrottle :=
    tracing_profile_spec (F := Nat) 0 10 5 1 100 [(1, 20), (2, 30)]
  have haccept :=
    tracing_profile_spec (F := Nat) 0 1 5 1 100 [(1, 20), (2, 30)]
  exact ⟨hthrottle.1 (by norm_num), by rw [(haccept.2 (by norm_num)).1]; rfl⟩

/-- C9: the itimer signal handler overwrites the main thread's entry in the
current-frames mapping with the interrupted frame (other entries unchanged,
per-thread uniqueness preserved) and samples each entry of the resulting
mapping exactly once. -/
theorem handle_signal_spec {F : Type} (main_thread_id : Nat) (frame : F)
    (cur : List (Nat × F)) :
    handle_signal main_thread_id frame cur =
      (setKey cur main_thread_id frame).map Prod.snd ∧
    lookupKey (setKey cur main_thread_id frame) main_thread_id = some frame ∧
    (∀ k : Nat, k ≠ main_thread_id →
      lookupKey (setKey cur main_thread_id frame) k = lookupKey cur k) ∧
    ((cur.map Prod.fst).Nodup →
      ((setKey cur main_thread_id frame).map Prod.fst).Nodup) ∧
    (handle_signal main_thread_id frame cur).length
      = (setKey cur main_thread_id frame).length := by
  refine ⟨rfl, lookupKey_setKey_self _ _ _,
    fun k hk => lookupKey_setKey_ne _ _ _ _ hk,
    fun hn => nodup_keys_setKey _ _ _ hn, ?_⟩
  simp [handle_signal]

/-- Witness for C9: two threads, the main thread's frame replaced. -/
theorem handle_signal_spec_witness :
    handle_signal 1 (100 : Nat) [(1, 20), (2, 30)] = [100, 30] ∧
    lookupKey (setKey [(1, (20 : Nat)), (2, 30)] 1 100) 2 = some 30 := by
  have h := handle_signal_spec (F := Nat) 1 100 [(1, 20), (2, 30)]
  exact ⟨by rw [h.1]; rfl, by rw [h.2.2.1 2 (by decide)]; rfl⟩

/-- C10: when `run()` terminates without yielding, `start` raises TypeError
but has already stored the generator, so the instance reports running;
every subsequent `start` raises RuntimeError, and `stop` returns the
instance to the stopped state. -/
theorem start_nonyielding_leaves_running :
    (start none ⟨[]⟩).err = some RunErr.typeError ∧
    is_running (start none ⟨[]⟩).state = true ∧
    (∀ g2 : Gen,
      (start (start none ⟨[]⟩).state g2).err = some RunErr.runtimeError) ∧
    (stop (start none ⟨[]⟩).state).state = none :=
  ⟨rfl, rfl, fun _ => rfl, rfl⟩

end Profiling
